import Mathlib

/-!
Shallow embedding of the mzr-disi-utils core (ISO-TP transport in
src/download/src/isotp.rs and the MZR session layer in src/mzr/src/lib.rs),
with theorems settling the frozen claims about the natural-language spec.

Conventions:
- Rust machine integers (u8/u16/u32/usize) are modelled as Nat; a truncating
  `as` cast is written as an explicit `% 2^w` wherever the value is not
  already provably below the bound.
- `std::time::Duration` is modelled as a total count of nanoseconds.
- Fixed-size byte arrays ([u8; N]) are modelled as `List Nat`; the codec and
  loop functions construct lists of the right length, mirroring the source.
- Fallible Rust functions returning `Result<T, E>` become `Except E T`.
-/

/-- Rust `std::time::Duration`, as total nanoseconds. -/
abbrev Duration := Nat

/-- `Duration::from_millis`. -/
def durationFromMillis (ms : Nat) : Duration := ms * 1000000

/-- `Duration::from_micros`. -/
def durationFromMicros (us : Nat) : Duration := us * 1000

/-- `Duration::subsec_micros`: microseconds within the current second. -/
def subsecMicros (d : Duration) : Nat := d % 1000000000 / 1000

/-- isotp.rs `st_to_duration`: converts a separation-time byte to a Duration.
Values 0..=127 are milliseconds; every other byte is taken as raw
microseconds (no special handling of the 0xF1-0xF9 scaled range). -/
def st_to_duration (st : Nat) : Duration :=
  if st ≤ 127 then durationFromMillis st else durationFromMicros st

/-- isotp.rs `duration_to_st`: converts a Duration to a separation-time byte.
Source: if `100 <= subsec_micros <= 900` return `max(subsec_micros/100,1)+0xF0`
(cast `as u8`), else `subsec_micros as u8`. -/
def duration_to_st (d : Duration) : Nat :=
  if subsecMicros d ≤ 900 ∧ 100 ≤ subsecMicros d then
    (max (subsecMicros d / 100) 1 + 0xF0) % 256
  else
    subsecMicros d % 256

/-- isotp.rs `IsotpError`: the transport error taxonomy. The `IoError`
variant is the source's `Io` variant wrapping an opaque `io::Error`; its
payload is irrelevant to the claims. -/
inductive IsotpError where
  | IoError
  | InvalidFcFlag
  | InvalidFrameId
  | TimedOut
  | UnexpectedFrame
  | InvalidIndex
deriving DecidableEq

/-- isotp.rs `FCFlag`: flow-control flag, with Rust discriminants 0,1,2. -/
inductive FCFlag where
  | Continue
  | Wait
  | Overflow
deriving DecidableEq

/-- The Rust `flag as u8` cast (enum discriminant). -/
def FCFlag.val : FCFlag → Nat
  | .Continue => 0
  | .Wait => 1
  | .Overflow => 2

/-- isotp.rs `Frame`: the four ISO-TP transport frame variants.
Field widths in the source: Single.length u8, Single.data [u8;7],
First.size u16, First.data [u8;6], Consecutive.index u8,
Consecutive.data [u8;7]. -/
inductive Frame where
  | Single (length : Nat) (data : List Nat)
  | First (size : Nat) (data : List Nat)
  | Consecutive (index : Nat) (data : List Nat)
  | Flow (flag : FCFlag) (block_size : Nat) (separation_time : Duration)
deriving DecidableEq

/-- datalink::can `Message`: CAN message with id, 8 data bytes, length. -/
structure Message where
  id : Nat
  data : List Nat
  len : Nat
deriving DecidableEq

/-- isotp.rs `Frame::single`: builds a Single frame from at most 7 bytes
(`assert!(data.len() <= 7)` in the source), zero-padding the 7-byte array.
The `data.len() as u8` cast cannot truncate under the assert. -/
def Frame.single (data : List Nat) : Frame :=
  .Single data.length (data ++ List.replicate (7 - data.length) 0)

/-- isotp.rs `Frame::consecutive`: builds a Consecutive frame from at most
7 bytes (`assert!(data.len() <= 7)`), zero-padding the 7-byte array. -/
def Frame.consecutive (data : List Nat) (index : Nat) : Frame :=
  .Consecutive index (data ++ List.replicate (7 - data.length) 0)

/-- isotp.rs `Frame::as_can_message`: encodes a frame into an 8-byte CAN
message. Transliterated bit for bit from the source; note that for First
the source computes `(1 << 4) | ((size & 0xF00) >> 16) as u8` - a 16-bit
value shifted right by 16 (over Nat this is 0, and the Rust release
semantics of masking the shift amount followed by the `as u8` cast of a
value whose low byte is 0 also yields 0), so byte 0's low nibble never
receives the high 4 bits of `size`. -/
def Frame.as_can_message (f : Frame) (id : Nat) : Message :=
  match f with
  | .Single length data =>
      { id := id, data := length :: data, len := 8 }
  | .First size data =>
      { id := id,
        data := ((1 <<< 4) ||| ((size &&& 0xF00) >>> 16))
                  :: (size &&& 0xFF) :: data,
        len := 8 }
  | .Consecutive index data =>
      { id := id, data := ((2 <<< 4) ||| index) :: data, len := 8 }
  | .Flow flag block_size separation_time =>
      { id := id,
        data := [0x30 ||| flag.val, block_size, duration_to_st separation_time,
                 0, 0, 0, 0, 0],
        len := 8 }

/-- isotp.rs `impl TryFrom<Message> for Frame`: decodes a CAN message.
Transliterated bit for bit. The source computes the dispatch code as
`(msg.data[0] & 0xF0) >> 8` - a u8 shifted right by 8 (a slip for `>> 4`;
rustc rejects this constant overflowing shift). Over Nat the shift is total
and the code is always 0, so every message takes the Single arm. The First
arm likewise shifts a u16 left by 16 (`(msg.data[0] as u16 & 0x0F) << 16`,
a slip for `<< 8`), kept literally as a Nat shift. -/
def Frame.try_from (msg : Message) : Except IsotpError Frame :=
  let byte0 := msg.data.getD 0 0
  let code := (byte0 &&& 0xF0) >>> 8
  match code with
  | 0 =>
      .ok (.Single (byte0 &&& 0x07) ((msg.data.drop 1).take 7))
  | 1 =>
      .ok (.First (((byte0 &&& 0x0F) <<< 16) ||| msg.data.getD 1 0)
            ((msg.data.drop 2).take 6))
  | 2 =>
      .ok (.Consecutive (byte0 &&& 0x0F) ((msg.data.drop 1).take 7))
  | 3 =>
      match byte0 &&& 0x03 with
      | 0 => .ok (.Flow .Continue (msg.data.getD 1 0)
                    (st_to_duration (msg.data.getD 2 0)))
      | 1 => .ok (.Flow .Wait (msg.data.getD 1 0)
                    (st_to_duration (msg.data.getD 2 0)))
      | 2 => .ok (.Flow .Overflow (msg.data.getD 1 0)
                    (st_to_duration (msg.data.getD 2 0)))
      | _ => .error .InvalidFcFlag
  | _ => .error .InvalidFrameId

/-- The sequence-index update shared by sender and receiver:
`index += 1; if index == 16 { index = 0 }`. -/
def nextIndex (i : Nat) : Nat := if i + 1 = 16 then 0 else i + 1

/-- isotp.rs `SendPacket`: cursor over the remaining bytes of a multi-frame
send, plus the next sequence index. `SendPacket::new` asserts
`buffer.len() <= 4095`; the panic on violation is not modelled, the claims
about `write_isotp` all assume payloads within that bound. -/
structure SendPacket where
  buffer : List Nat
  index : Nat
deriving DecidableEq

/-- isotp.rs `SendPacket::new`. -/
def SendPacket.new (buffer : List Nat) : SendPacket := ⟨buffer, 0⟩

/-- isotp.rs `SendPacket::first_frame`: emits the First frame (up to 6
bytes, declared size = full buffer length `as u16`) and advances the
cursor, setting the next index to 1. -/
def SendPacket.first_frame (sp : SendPacket) : Frame × SendPacket :=
  let len := min sp.buffer.length 6
  (Frame.First (sp.buffer.length % 65536) (sp.buffer.take len),
   ⟨sp.buffer.drop len, 1⟩)

/-- isotp.rs `SendPacket::next_consec_frame`: emits the next Consecutive
frame (up to 7 bytes, zero-padded via `Frame::consecutive`) and advances
the cursor and the wrapping index. -/
def SendPacket.next_consec_frame (sp : SendPacket) : Frame × SendPacket :=
  let len := min sp.buffer.length 7
  (Frame.consecutive (sp.buffer.take len) sp.index,
   ⟨sp.buffer.drop len, nextIndex sp.index⟩)

/-- isotp.rs `IsotpCan::recv_flow_control_frame`, at the frame level: the
next incoming frame must be a Flow frame, anything else is
`UnexpectedFrame`; an exhausted stream models the blocking read hitting its
deadline (`TimedOut`). Returns the (flag, block_size, separation_time)
triple and the rest of the stream. -/
def recv_flow_control_frame (incoming : List Frame) :
    Except IsotpError ((FCFlag × Nat × Duration) × List Frame) :=
  match incoming with
  | [] => .error .TimedOut
  | .Flow flag block_size separation_time :: rest =>
      .ok ((flag, block_size, separation_time), rest)
  | _ :: _ => .error .UnexpectedFrame

/-- The consecutive-frame send loop of isotp.rs `IsotpCan::write_isotp`
(the `while !packet.eof()` loop), at the frame level. Returns the list of
Consecutive frames sent, in order. The separation-time sleep is a pure
timing effect and does not appear in the value; on an error the frames
already emitted are discarded with the error, as the caller of
`write_isotp` only observes the error. After sending a frame, if more data
remains and the granted block size is positive it is decremented, and when
it hits zero a fresh flow-control grant is taken from the stream. -/
def sendLoop (sp : SendPacket) (block_size : Nat) (separation_time : Duration)
    (incoming : List Frame) : Except IsotpError (List Frame) :=
  if hb : sp.buffer = [] then .ok []
  else
    let frame := (SendPacket.next_consec_frame sp).1
    let sp' := (SendPacket.next_consec_frame sp).2
    if sp'.buffer ≠ [] ∧ 0 < block_size then
      if block_size - 1 = 0 then
        match recv_flow_control_frame incoming with
        | .error e => .error e
        | .ok ((_, bs, st), rest) =>
            match sendLoop sp' bs st rest with
            | .error e => .error e
            | .ok frames => .ok (frame :: frames)
      else
        match sendLoop sp' (block_size - 1) separation_time incoming with
        | .error e => .error e
        | .ok frames => .ok (frame :: frames)
    else
      match sendLoop sp' block_size separation_time incoming with
      | .error e => .error e
      | .ok frames => .ok (frame :: frames)
termination_by sp.buffer.length
decreasing_by
  all_goals
    have hpos : 0 < sp.buffer.length := List.length_pos.mpr hb
    simp [SendPacket.next_consec_frame]
    omega

/-- isotp.rs `IsotpCan::write_isotp`, at the frame level: `incoming` is the
stream of frames arriving from the peer (consumed only for flow control),
and the result is the list of frames sent. A payload of at most 7 bytes is
sent as one Single frame with no flow-control exchange; otherwise one First
frame is sent, one flow-control grant is awaited, and the send loop runs. -/
def write_isotp (data : List Nat) (incoming : List Frame) :
    Except IsotpError (List Frame) :=
  if data.length ≤ 7 then .ok [Frame.single data]
  else
    let sp := SendPacket.new data
    let first := (SendPacket.first_frame sp).1
    let sp' := (SendPacket.first_frame sp).2
    match recv_flow_control_frame incoming with
    | .error e => .error e
    | .ok ((_, block_size, separation_time), rest) =>
        match sendLoop sp' block_size separation_time rest with
        | .error e => .error e
        | .ok frames => .ok (first :: frames)

/-- The consecutive-frame receive loop of isotp.rs `IsotpCan::read_isotp`
(the `while remaining > 0` loop): each incoming frame must be a Consecutive
frame carrying the expected wrapping index; its entire 7-byte data array is
appended to the buffer while only `min remaining 7` is subtracted from the
remaining count. An exhausted stream models the blocking read timing out. -/
def recvConsecLoop (frames : List Frame) (index remaining : Nat)
    (buffer : List Nat) : Except IsotpError (List Nat) :=
  if remaining = 0 then .ok buffer
  else
    match frames with
    | [] => .error .TimedOut
    | .Consecutive msg_index data :: rest =>
        if msg_index ≠ index then .error .InvalidIndex
        else
          let len := min remaining 7
          recvConsecLoop rest (nextIndex index) (remaining - len)
            (buffer ++ data)
    | _ :: _ => .error .UnexpectedFrame

/-- isotp.rs `IsotpCan::read_isotp`, at the frame level: takes the stream
of frames arriving from the peer and returns the reassembled payload
together with the frames sent back (the single unconditional flow-control
grant `Flow { Continue, block_size: 0, st_to_duration(0) }` in the
multi-frame case). A Single frame returns its length-bounded data slice; a
First frame starts reassembly with `min size 6` bytes; any other opening
frame is `UnexpectedFrame`, and an empty stream models a timeout. -/
def read_isotp (incoming : List Frame) :
    Except IsotpError (List Nat × List Frame) :=
  match incoming with
  | [] => .error .TimedOut
  | .Single length data :: _ =>
      .ok (data.take (min length 7), [])
  | .First size data :: rest =>
      let buffer := data.take (min size 6)
      let remaining := size - buffer.length
      match recvConsecLoop rest 1 remaining buffer with
      | .error e => .error e
      | .ok b => .ok (b, [Frame.Flow .Continue 0 (st_to_duration 0)])
  | _ :: _ => .error .UnexpectedFrame

/-- The error type of the external `obd` crate, opaque to this embedding:
only the fact that an error occurred matters, every such error is wrapped
into `MzrError.Obd` by the blanket `MzrBus` impl and by `?` conversion. -/
inductive ObdError where
  | mk
deriving DecidableEq

/-- mzr lib.rs `MzrError`. The `Obd` variant wraps an opaque `obd::Error`;
only the constructor identity matters to the claims. -/
inductive MzrError where
  | EmptyPacket
  | NotErased
  | Obd
deriving DecidableEq

/-- mzr lib.rs `MZR_KEY = "MazdA"`, as its ASCII bytes. -/
def MZR_KEY : List Nat := [0x4D, 0x61, 0x7A, 0x64, 0x41]

/-- One iteration of the inner 8-step mixing loop of mzr lib.rs
`generate_key`, on the pair (c, parameter). Transliterated statement by
statement; `c` is a u8 and `parameter` a u32, but every operation here
stays within those ranges over Nat (the step ends by masking the
accumulator to 24 bits). -/
def keyStep (cp : Nat × Nat) : Nat × Nat :=
  let c := cp.1
  let parameter := cp.2
  let s := (c &&& 1) ^^^ (parameter &&& 1)
  let m : Nat := if s ≠ 0 then 0x00109028 else 0
  let parameter := if s ≠ 0 then parameter ||| 0x01000000 else parameter
  let c := c >>> 1
  let parameter := parameter >>> 1
  let p3 := parameter &&& 0xFFEF6FD7
  let parameter := parameter ^^^ m
  let parameter := parameter &&& 0x00109028
  let parameter := parameter ||| p3
  let parameter := parameter &&& 0x00FFFFFF
  (c, parameter)

/-- The `for _ in (1..=8).rev()` loop of `generate_key`: 8 mixing steps on
one input byte, returning the updated accumulator. -/
def keyByte (parameter c : Nat) : Nat := (keyStep^[8] (c, parameter)).2

/-- mzr lib.rs `generate_key`: derives the 3-byte security-access key from
the secret (as bytes), the 24-bit parameter, and the seed. The input stream
is `seed ++ key` (`nseed`); the accumulator threads through `keyByte` for
every byte; the final three bytes are repacked with the source's exact
shift/mask/add rules (the `as u8` casts on the two sums are the `% 256`). -/
def generate_key (key : List Nat) (parameter : Nat) (seed : List Nat) :
    List Nat :=
  let nseed := seed ++ key
  let p := nseed.foldl keyByte parameter
  [(p >>> 4) &&& 0xFF,
   (((p >>> 20) &&& 0xFF) + ((p >>> 8) &&& 0xF0)) % 256,
   (((p <<< 4) &&& 0xFF) + ((p >>> 16) &&& 0x0F)) % 256]

/-- mzr lib.rs `DownloadState`. -/
inductive DownloadState where
  | InProgress (length : Nat)
  | Completed
deriving DecidableEq

/-- mzr lib.rs `Downloader`: offset (u32), remaining (usize), accumulated
data. The borrowed bus is passed to `step` as an oracle instead of being
stored. -/
structure Downloader where
  offset : Nat
  remaining : Nat
  data : List Nat
deriving DecidableEq

/-- mzr lib.rs `Downloader::new`: offset 0, remaining 1 MiB, empty buffer. -/
def Downloader.new : Downloader := ⟨0, 1024 * 1024, []⟩

/-- mzr lib.rs `Downloader::total_size`. -/
def Downloader.total_size (_ : Downloader) : Nat := 1024 * 1024

/-- mzr lib.rs `Downloader::step`. The bus's `read_memory_address(0x7e0,
offset, len)` is modelled as an oracle from (offset, length) to a result
(a bus failure is an `obd::Error`, wrapped into `MzrError.Obd` by `?`);
the third component of the return value records the (offset, length)
requests actually issued on the bus during the call. The `as u32`/`as u16`
casts cannot truncate at the sizes involved (remaining starts at 2^20 and
never grows), and `remaining -= section.len()` is usize subtraction whose
underflow would panic; under the claims the section length never exceeds
remaining. -/
def Downloader.step (bus : Nat → Nat → Except ObdError (List Nat))
    (d : Downloader) :
    Except MzrError DownloadState × Downloader × List (Nat × Nat) :=
  if d.remaining = 0 then (.ok .Completed, d, [])
  else
    let req := min d.remaining 0xFFE
    match bus d.offset req with
    | .error _ => (.error .Obd, d, [(d.offset, req)])
    | .ok sect =>
        if sect.length = 0 then (.error .EmptyPacket, d, [(d.offset, req)])
        else
          let d' : Downloader :=
            ⟨d.offset + sect.length, d.remaining - sect.length,
             d.data ++ sect⟩
          if 0 < d'.remaining then
            (.ok (.InProgress d'.data.length), d', [(d.offset, req)])
          else
            (.ok .Completed, d', [(d.offset, req)])

/-- The downloader state reached after `k` calls to `step` against `bus`,
starting from `Downloader.new`. -/
def Downloader.iter (bus : Nat → Nat → Except ObdError (List Nat)) :
    Nat → Downloader
  | 0 => Downloader.new
  | k + 1 => (Downloader.step bus (Downloader.iter bus k)).2.1

/-- mzr lib.rs `ProgrammerState`. -/
inductive ProgrammerState where
  | InProgress (length : Nat)
  | Completed
deriving DecidableEq

/-- mzr lib.rs `Programmer`: offset (u32), position (usize), source data,
and the `erased` readiness flag. The borrowed bus is modelled as oracles
passed to `start`/`step`. -/
structure Programmer where
  offset : Nat
  position : Nat
  data : List Nat
  erased : Bool
deriving DecidableEq

/-- mzr lib.rs `Programmer::new`: position 0, erased false. -/
def Programmer.new (offset : Nat) (data : List Nat) : Programmer :=
  ⟨offset, 0, data, false⟩

/-- mzr lib.rs `Programmer::start`: authenticate(0x85), then the fixed
erase command `query_uds(0x7e0, 0xB1, [0x00,0xB2,0x00])`, then
`request_download(offset, data.len() - position)`; only if all three
succeed is `erased` set. The three bus exchanges are modelled as oracle
results consumed in source order (`?` propagates the first error, leaving
the programmer unchanged). -/
def Programmer.start (auth eraseCmd reqDownload : Except MzrError Unit)
    (p : Programmer) : Except MzrError Unit × Programmer :=
  match auth with
  | .error e => (.error e, p)
  | .ok _ =>
      match eraseCmd with
      | .error e => (.error e, p)
      | .ok _ =>
          match reqDownload with
          | .error e => (.error e, p)
          | .ok _ => (.ok (), { p with erased := true })

/-- mzr lib.rs `Programmer::step`. The bus's `transfer_data(chunk)` result
is the oracle `resp` (its chunk argument is recorded in the third
component, the list of transfer_data calls issued during this call); a
transfer failure is an `obd::Error`, wrapped into `MzrError.Obd` by the
blanket `MzrBus` impl. -/
def Programmer.step (resp : Except ObdError Unit) (p : Programmer) :
    Except MzrError ProgrammerState × Programmer × List (List Nat) :=
  if !p.erased then (.error .NotErased, p, [])
  else if p.position = p.data.length then (.ok .Completed, p, [])
  else
    let to_send := min (p.data.length - p.position) 0xFFE
    let chunk := (p.data.drop p.position).take to_send
    match resp with
    | .error _ => (.error .Obd, p, [chunk])
    | .ok _ =>
        let p' := { p with position := p.position + to_send }
        if p'.position ≠ p.data.length then
          (.ok (.InProgress p'.position), p', [chunk])
        else
          (.ok .Completed, p', [chunk])

/-- The programmer state reached after running `step` once for each oracle
response in `resps`, threading the state. -/
def Programmer.runSteps (resps : List (Except ObdError Unit))
    (p : Programmer) : Programmer :=
  match resps with
  | [] => p
  | r :: rest => Programmer.runSteps rest (Programmer.step r p).2.1

/-- Decidable equality for `Except`, so that concrete codec and transport
results can be evaluated by `decide`. -/
instance {e a : Type} [DecidableEq e] [DecidableEq a] :
    DecidableEq (Except e a) := fun x y =>
  match x, y with
  | .ok u, .ok v =>
      if h : u = v then .isTrue (by rw [h])
      else .isFalse (fun hh => h (Except.ok.inj hh))
  | .error u, .error v =>
      if h : u = v then .isTrue (by rw [h])
      else .isFalse (fun hh => h (Except.error.inj hh))
  | .ok _, .error _ => .isFalse (fun hh => Except.noConfusion hh)
  | .error _, .ok _ => .isFalse (fun hh => Except.noConfusion hh)

/-- Specification helper (not itself source code): the list of Consecutive
frames obtained by chunking buffer `b` into 7-byte zero-padded frames with
wrapping sequence indices starting at `i` - exactly the frames
`SendPacket::next_consec_frame` emits until the cursor is empty, which is
proved below and used to state claim C3. -/
def mkConsecs (b : List Nat) (i : Nat) : List Frame :=
  if b = [] then []
  else
    Frame.consecutive (b.take (min b.length 7)) i ::
      mkConsecs (b.drop (min b.length 7)) (nextIndex i)
termination_by b.length
decreasing_by
  rename_i hb
  have hpos : 0 < b.length := List.length_pos.mpr hb
  simp
  omega

/-- Specification helper: attaches wrapping sequence indices starting at
`i` to a list of 7-byte data chunks, producing Consecutive frames; used to
quantify over the incoming frames of a multi-frame receive in claim C6. -/
def attachIdx : List (List Nat) → Nat → List Frame
  | [], _ => []
  | c :: cs, i => Frame.Consecutive i c :: attachIdx cs (nextIndex i)

/-- Specification helper: the sequence index of a Consecutive frame. -/
def frameIndex : Frame → Option Nat
  | .Consecutive i _ => some i
  | _ => none

/-- Claim C1 (code_bug evaluation): the frame codec does NOT round-trip.
Encoding the First frame with size 0 and decoding the resulting CAN message
yields a Single frame (with length 0), not the original First frame: the
decode dispatch `(msg.data[0] & 0xF0) >> 8` shifts a u8 right by 8 (a slip
for `>> 4`), so the selector is 0 for every message and every encoded
First/Consecutive/Flow frame decodes as Single. -/
theorem claim_C1_roundtrip_fails_eval :
    Frame.try_from
        (Frame.as_can_message (Frame.First 0 [0, 0, 0, 0, 0, 0]) 0x7E0)
      = .ok (Frame.Single 0 [0, 0, 0, 0, 0, 0, 0]) ∧
    Frame.try_from
        (Frame.as_can_message (Frame.First 0 [0, 0, 0, 0, 0, 0]) 0x7E0)
      ≠ .ok (Frame.First 0 [0, 0, 0, 0, 0, 0]) ∧
    Frame.try_from
        (Frame.as_can_message (Frame.Consecutive 5 [1, 2, 3, 4, 5, 6, 7]) 0x7E0)
      ≠ .ok (Frame.Consecutive 5 [1, 2, 3, 4, 5, 6, 7]) := by
  refine ⟨rfl, ?_, ?_⟩ <;> decide

/-- Claim C2 (code_bug evaluation): decode does NOT dispatch on the high
nibble of byte 0. A message with byte 0 = 0x10 (claim: First) decodes as
Single, and a message with byte 0 = 0x40 (claim: InvalidFrameId) also
decodes as Single, because the dispatch code `(data[0] & 0xF0) >> 8` (slip
for `>> 4`) is always 0 over Nat; in Rust the constant overflowing shift is
rejected outright. -/
theorem claim_C2_dispatch_fails_eval :
    Frame.try_from ⟨0x7E0, [0x10, 0x2A, 0, 0, 0, 0, 0, 0], 8⟩
      = .ok (Frame.Single 0 [0x2A, 0, 0, 0, 0, 0, 0]) ∧
    Frame.try_from ⟨0x7E0, [0x40, 0, 0, 0, 0, 0, 0, 0], 8⟩
      = .ok (Frame.Single 0 [0, 0, 0, 0, 0, 0, 0]) ∧
    Frame.try_from ⟨0x7E0, [0x40, 0, 0, 0, 0, 0, 0, 0], 8⟩
      ≠ .error .InvalidFrameId := by
  refine ⟨rfl, rfl, ?_⟩
  decide

/-- Claim C4 (code_bug evaluation): First-frame bit packing loses the high
4 bits of the 12-bit size. Encoding size 256 (high 4 bits = 1) produces
byte 0 = 0x10, whose low nibble is 0 instead of 1, because the source
computes `((size & 0xF00) >> 16) as u8` (a slip for `>> 8`): the claim
expects byte 0 = 0x11. Byte 1 correctly carries the low 8 bits (0). -/
theorem claim_C4_size_packing_fails_eval :
    Frame.as_can_message (Frame.First 256 [0, 0, 0, 0, 0, 0]) 0x7E0
      = ⟨0x7E0, [0x10, 0, 0, 0, 0, 0, 0, 0], 8⟩ ∧
    (Frame.as_can_message (Frame.First 256 [0, 0, 0, 0, 0, 0]) 0x7E0).data.getD 0 0
      &&& 0x0F = 0 ∧
    (256 >>> 8) &&& 0x0F = 1 := by
  refine ⟨rfl, rfl, rfl⟩

/-- Claim C5 counterexample: the separation-time byte round trip fails at
b = 0xF1. `st_to_duration 0xF1` is 241 raw microseconds, and
`duration_to_st` re-encodes any microsecond value in 100..=900 as
`max(us/100, 1) + 0xF0 = 0xF2`, not 0xF1. -/
theorem claim_C5_counterexample :
    duration_to_st (st_to_duration 0xF1) = 0xF2 ∧
    duration_to_st (st_to_duration 0xF1) ≠ 0xF1 := by
  exact ⟨rfl, by decide⟩

/-- Claim C5 (amended): for every byte value b in 0xF1..0xF9, converting b
to a duration with st_to_duration and back with duration_to_st yields 0xF2
(so the round trip of the original claim holds only at b = 0xF2). -/
theorem claim_C5_amended (b : Nat) (h1 : 0xF1 ≤ b) (h2 : b ≤ 0xF9) :
    duration_to_st (st_to_duration b) = 0xF2 := by
  interval_cases b <;> rfl

/-- Witness for claim C5's amended theorem at b = 0xF5. -/
theorem claim_C5_witness :
    0xF1 ≤ 0xF5 ∧ 0xF5 ≤ 0xF9 ∧
    duration_to_st (st_to_duration 0xF5) = 0xF2 :=
  ⟨by decide, by decide, claim_C5_amended 0xF5 (by decide) (by decide)⟩

/-- Claim C7: generate_key is a pure deterministic total function: equal
inputs give equal output (trivially, as the embedding is a total function),
the result always has exactly 3 bytes, and for empty secret and empty seed
the per-byte mixing loop does not execute, so the 3 output bytes are packed
directly from the unmixed parameter. -/
theorem claim_C7_generate_key_pure_total (key : List Nat) (parameter : Nat)
    (seed : List Nat) :
    generate_key key parameter seed = generate_key key parameter seed ∧
    (generate_key key parameter seed).length = 3 ∧
    generate_key [] parameter [] =
      [(parameter >>> 4) &&& 0xFF,
       (((parameter >>> 20) &&& 0xFF) + ((parameter >>> 8) &&& 0xF0)) % 256,
       (((parameter <<< 4) &&& 0xFF) + ((parameter >>> 16) &&& 0x0F)) % 256] :=
  ⟨rfl, rfl, rfl⟩

theorem Programmer.step_erased (resp : Except ObdError Unit)
    (p : Programmer) : ((Programmer.step resp p).2.1).erased = p.erased := by
  unfold Programmer.step
  cases hp : p.erased with
  | false => simp [hp]
  | true =>
      simp
      by_cases h2 : p.position = p.data.length
      · simp [h2, hp]
      · simp [h2]
        cases resp with
        | error e => simp [hp]
        | ok u => simp; split <;> simp [hp]

theorem Programmer.runSteps_erased (resps : List (Except ObdError Unit))
    (p : Programmer) : (Programmer.runSteps resps p).erased = p.erased := by
  induction resps generalizing p with
  | nil => rfl
  | cons r rest ih =>
      rw [Programmer.runSteps, ih, Programmer.step_erased]

theorem Programmer.step_no_NotErased_of_erased (resp : Except ObdError Unit)
    (p : Programmer) (h : p.erased = true) :
    (Programmer.step resp p).1 ≠ .error .NotErased := by
  unfold Programmer.step
  simp [h]
  by_cases h2 : p.position = p.data.length
  · simp [h2]
  · simp [h2]
    cases resp with
    | error e => simp
    | ok u => simp; split <;> simp

/-- Claim C8: a Programmer freshly constructed has the erased flag false;
any step() call while the flag is false returns NotErased, issues no
transfer_data call and leaves the state unchanged; start() sets the flag
exactly when it returns success; and once the flag is true, no sequence of
further step() calls can ever return NotErased again. -/
theorem claim_C8_programming_guard (resp : Except ObdError Unit)
    (p : Programmer) (offset0 : Nat) (data0 : List Nat) :
    ((Programmer.new offset0 data0).erased = false) ∧
    (p.erased = false → Programmer.step resp p = (.error .NotErased, p, [])) ∧
    (∀ auth eraseCmd reqDownload q r,
        Programmer.start auth eraseCmd reqDownload p = (r, q) →
        r = .ok () → q.erased = true) ∧
    (p.erased = true →
      ∀ resps, (Programmer.step resp (Programmer.runSteps resps p)).1
        ≠ .error .NotErased) := by
  refine ⟨rfl, ?_, ?_, ?_⟩
  · intro h
    unfold Programmer.step
    simp [h]
  · intro auth ec rd q r hstart hr
    subst hr
    cases auth with
    | error e => simp [Programmer.start] at hstart
    | ok u =>
        cases ec with
        | error e => simp [Programmer.start] at hstart
        | ok v =>
            cases rd with
            | error e => simp [Programmer.start] at hstart
            | ok w =>
                simp [Programmer.start] at hstart
                rw [← hstart]
  · intro h resps
    have hE : (Programmer.runSteps resps p).erased = true := by
      rw [Programmer.runSteps_erased, h]
    exact Programmer.step_no_NotErased_of_erased resp _ hE

/-- Witness for claim C8: a fresh programmer (erased = false) gets
NotErased with no bus call and no state change; a programmer with the flag
set never gets NotErased from step(). -/
theorem claim_C8_witness :
    Programmer.step (.ok ()) (Programmer.new 0 [1, 2]) =
      (.error .NotErased, Programmer.new 0 [1, 2], []) ∧
    (Programmer.step (.ok ()) ⟨0, 0, [1, 2], true⟩).1 ≠ .error .NotErased :=
  ⟨(claim_C8_programming_guard (.ok ()) (Programmer.new 0 [1, 2]) 0 [1, 2]).2.1
      rfl,
   (claim_C8_programming_guard (.ok ()) ⟨0, 0, [1, 2], true⟩ 0 []).2.2.2 rfl []⟩

/-- Claim C10: step() on a Downloader whose remaining counter is zero
returns Completed, issues no bus request, and leaves the whole state
(offset, remaining, data) unchanged. -/
theorem claim_C10_step_idempotent_after_completion
    (bus : Nat → Nat → Except ObdError (List Nat)) (d : Downloader)
    (h : d.remaining = 0) :
    Downloader.step bus d = (.ok .Completed, d, []) := by
  unfold Downloader.step
  simp [h]

/-- Witness for claim C10 at a concrete completed downloader. -/
theorem claim_C10_witness :
    Downloader.step (fun _ _ => .ok []) ⟨17, 0, [1, 2, 3]⟩ =
      (.ok .Completed, (⟨17, 0, [1, 2, 3]⟩ : Downloader), []) :=
  claim_C10_step_idempotent_after_completion (fun _ _ => .ok []) ⟨17, 0, [1, 2, 3]⟩ rfl

theorem Downloader.step_result (bus : Nat → Nat → Except ObdError (List Nat))
    (d : Downloader) (s : List Nat) (hrem : d.remaining ≠ 0)
    (hs : bus d.offset (min d.remaining 0xFFE) = .ok s)
    (hlen : s.length = min d.remaining 0xFFE) :
    Downloader.step bus d =
      ((if 0 < d.remaining - s.length then
          .ok (.InProgress (d.data.length + s.length))
        else .ok .Completed),
       ⟨d.offset + s.length, d.remaining - s.length, d.data ++ s⟩,
       [(d.offset, min d.remaining 0xFFE)]) := by
  have hpos : 0 < min d.remaining 0xFFE :=
    lt_min (Nat.pos_of_ne_zero hrem) (by norm_num)
  have hs0 : s.length ≠ 0 := by omega
  unfold Downloader.step
  simp [hrem, hs, hs0]
  split <;> rfl

theorem downloader_iter_invariant
    (bus : Nat → Nat → Except ObdError (List Nat))
    (hbus : ∀ off len, ∃ s, bus off len = .ok s ∧ s.length = len)
    (k : Nat) : k ≤ 256 →
    (Downloader.iter bus k).offset = 4094 * k ∧
    (Downloader.iter bus k).remaining = 1048576 - 4094 * k ∧
    (Downloader.iter bus k).data.length = 4094 * k := by
  induction k with
  | zero => intro _; refine ⟨rfl, rfl, rfl⟩
  | succ n ih =>
      intro hk
      obtain ⟨ho, hr, hd⟩ := ih (by omega)
      have hrem : (Downloader.iter bus n).remaining ≠ 0 := by omega
      have hmin : min (Downloader.iter bus n).remaining 0xFFE = 4094 :=
        min_eq_right (by omega)
      obtain ⟨s, hs, hslen⟩ :=
        hbus (Downloader.iter bus n).offset
          (min (Downloader.iter bus n).remaining 0xFFE)
      have hstep := Downloader.step_result bus (Downloader.iter bus n) s hrem hs hslen
      have hiter : Downloader.iter bus (n + 1)
          = (Downloader.step bus (Downloader.iter bus n)).2.1 := rfl
      rw [hiter, hstep]
      simp [List.length_append]
      refine ⟨by omega, by omega, by omega⟩

/-- Claim C9: against a bus whose memory reads return exactly the requested
chunk (of at most 0xFFE = 4094 bytes), the 1 MiB downloader returns
InProgress on each of the first 256 step() calls (with the running buffer
length 4094*(k+1)) and Completed on call number 257, at which point the
accumulated buffer has length exactly 1048576. -/
theorem claim_C9_download_completion_count
    (bus : Nat → Nat → Except ObdError (List Nat))
    (hbus : ∀ off len, ∃ s, bus off len = .ok s ∧ s.length = len) :
    (∀ k, k < 256 →
      (Downloader.step bus (Downloader.iter bus k)).1
        = .ok (.InProgress (4094 * (k + 1)))) ∧
    (Downloader.step bus (Downloader.iter bus 256)).1 = .ok .Completed ∧
    (Downloader.iter bus 257).data.length = 1024 * 1024 := by
  have final : (Downloader.iter bus 257).data.length = 1024 * 1024 := by
    obtain ⟨ho, hr, hd⟩ := downloader_iter_invariant bus hbus 256 (by omega)
    have hrem : (Downloader.iter bus 256).remaining ≠ 0 := by omega
    have hmin : min (Downloader.iter bus 256).remaining 0xFFE = 512 := by
      rw [hr]; norm_num
    obtain ⟨s, hs, hslen⟩ :=
      hbus (Downloader.iter bus 256).offset
        (min (Downloader.iter bus 256).remaining 0xFFE)
    have hstep := Downloader.step_result bus (Downloader.iter bus 256) s hrem hs hslen
    have hiter : Downloader.iter bus 257
        = (Downloader.step bus (Downloader.iter bus 256)).2.1 := by
      rw [show (257 : Nat) = 256 + 1 from rfl, Downloader.iter]
    rw [hiter, hstep]
    simp [List.length_append]
    omega
  refine ⟨?_, ?_, final⟩
  · intro k hk
    obtain ⟨ho, hr, hd⟩ := downloader_iter_invariant bus hbus k (by omega)
    have hrem : (Downloader.iter bus k).remaining ≠ 0 := by omega
    have hmin : min (Downloader.iter bus k).remaining 0xFFE = 4094 :=
      min_eq_right (by omega)
    obtain ⟨s, hs, hslen⟩ :=
      hbus (Downloader.iter bus k).offset
        (min (Downloader.iter bus k).remaining 0xFFE)
    rw [Downloader.step_result bus (Downloader.iter bus k) s hrem hs hslen]
    have hcond : 0 < (Downloader.iter bus k).remaining - s.length := by omega
    simp [hcond]
    omega
  · obtain ⟨ho, hr, hd⟩ := downloader_iter_invariant bus hbus 256 (by omega)
    have hrem : (Downloader.iter bus 256).remaining ≠ 0 := by omega
    have hmin : min (Downloader.iter bus 256).remaining 0xFFE = 512 := by
      rw [hr]; norm_num
    obtain ⟨s, hs, hslen⟩ :=
      hbus (Downloader.iter bus 256).offset
        (min (Downloader.iter bus 256).remaining 0xFFE)
    rw [Downloader.step_result bus (Downloader.iter bus 256) s hrem hs hslen]
    have hcond : ¬ 0 < (Downloader.iter bus 256).remaining - s.length := by omega
    simp [hcond]

/-- Witness for claim C9 against the concrete bus returning zero-filled
chunks of exactly the requested length. -/
theorem claim_C9_witness :
    (Downloader.step (fun _ len => .ok (List.replicate len 0))
        (Downloader.iter (fun _ len => .ok (List.replicate len 0)) 256)).1
      = .ok .Completed ∧
    (Downloader.iter (fun _ len => .ok (List.replicate len 0)) 257).data.length
      = 1024 * 1024 :=
  ⟨(claim_C9_download_completion_count (fun _ len => .ok (List.replicate len 0))
      (fun _ len => ⟨List.replicate len 0, rfl, List.length_replicate len 0⟩)).2.1,
   (claim_C9_download_completion_count (fun _ len => .ok (List.replicate len 0))
      (fun _ len => ⟨List.replicate len 0, rfl, List.length_replicate len 0⟩)).2.2⟩

theorem sendLoop_zero_block (n : Nat) :
    ∀ (b : List Nat) (i : Nat) (st : Duration) (incoming : List Frame),
      b.length ≤ n →
      sendLoop ⟨b, i⟩ 0 st incoming = .ok (mkConsecs b i) := by
  induction n with
  | zero =>
      intro b i st incoming hb
      have hbe : b = [] := List.length_eq_zero.mp (by omega)
      subst hbe
      rw [sendLoop, mkConsecs]
      simp
  | succ n ih =>
      intro b i st incoming hb
      by_cases hbe : b = []
      · subst hbe
        rw [sendLoop, mkConsecs]
        simp
      · rw [sendLoop, mkConsecs]
        simp only [hbe, dite_false, if_neg, SendPacket.next_consec_frame]
        have hlen : (b.drop (min b.length 7)).length ≤ n := by
          have : 0 < b.length := List.length_pos.mpr hbe
          simp
          omega
        rw [ih (b.drop (min b.length 7)) (nextIndex i) st incoming hlen]
        simp [hbe]

theorem mkConsecs_length (n : Nat) :
    ∀ (b : List Nat) (i : Nat), b.length ≤ n →
      (mkConsecs b i).length = (b.length + 6) / 7 := by
  induction n with
  | zero =>
      intro b i hb
      have hbe : b = [] := List.length_eq_zero.mp (by omega)
      subst hbe
      rw [mkConsecs]
      simp
  | succ n ih =>
      intro b i hb
      by_cases hbe : b = []
      · subst hbe; rw [mkConsecs]; simp
      · rw [mkConsecs]
        simp only [hbe, ite_false, List.length_cons]
        have hpos : 0 < b.length := List.length_pos.mpr hbe
        have hlen : (b.drop (min b.length 7)).length ≤ n := by simp; omega
        rw [ih _ (nextIndex i) hlen]
        simp
        omega

theorem mkConsecs_map_frameIndex (n : Nat) :
    ∀ (b : List Nat) (i : Nat), b.length ≤ n → i < 16 →
      (mkConsecs b i).map frameIndex
        = (List.range ((b.length + 6) / 7)).map (fun j => some ((i + j) % 16)) := by
  induction n with
  | zero =>
      intro b i hb hi
      have hbe : b = [] := List.length_eq_zero.mp (by omega)
      subst hbe
      rw [mkConsecs]
      simp
  | succ n ih =>
      intro b i hb hi
      by_cases hbe : b = []
      · subst hbe; rw [mkConsecs]; simp
      · rw [mkConsecs]
        simp only [hbe, ite_false, List.map_cons]
        have hpos : 0 < b.length := List.length_pos.mpr hbe
        have hlen : (b.drop (min b.length 7)).length ≤ n := by simp; omega
        have hnext : nextIndex i < 16 := by unfold nextIndex; split <;> omega
        rw [ih _ (nextIndex i) hlen hnext]
        have hcount : (b.length + 6) / 7
            = ((b.drop (min b.length 7)).length + 6) / 7 + 1 := by
          simp
          omega
        rw [hcount, List.range_succ_eq_map, List.map_cons, List.map_map]
        have hhead : frameIndex (Frame.consecutive (b.take (min b.length 7)) i)
            = some ((i + 0) % 16) := by
          simp [frameIndex, Frame.consecutive, Nat.mod_eq_of_lt hi]
        rw [hhead]
        congr 1
        apply List.map_congr_left
        intro j hj
        simp only [Function.comp, nextIndex]
        split <;> (simp; omega)

theorem recvConsecLoop_mkConsecs (n : Nat) :
    ∀ (b : List Nat) (i : Nat) (acc : List Nat), b.length ≤ n →
      recvConsecLoop (mkConsecs b i) i b.length acc
        = .ok (acc ++ b ++
            List.replicate (7 * ((b.length + 6) / 7) - b.length) 0) := by
  induction n with
  | zero =>
      intro b i acc hb
      have hbe : b = [] := List.length_eq_zero.mp (by omega)
      subst hbe
      rw [mkConsecs]
      simp [recvConsecLoop.eq_1]
  | succ n ih =>
      intro b i acc hb
      by_cases hbe : b = []
      · subst hbe
        rw [mkConsecs]
        simp [recvConsecLoop.eq_1]
      · have hpos : 0 < b.length := List.length_pos.mpr hbe
        have hr0 : ¬ (b.length = 0) := by omega
        rw [mkConsecs]
        simp only [hbe, ite_false, Frame.consecutive]
        rw [recvConsecLoop.eq_2]
        simp only [hr0, ite_false, ne_eq, not_true_eq_false]
        have hdroplen : (b.drop (min b.length 7)).length ≤ n := by simp; omega
        have harg : b.length - min b.length 7
            = (b.drop (min b.length 7)).length := by simp
        rw [harg]
        rw [ih (b.drop (min b.length 7)) (nextIndex i) _ hdroplen]
        rcases le_or_lt 7 b.length with h7 | h7
        · have htl : (b.take (min b.length 7)).length = 7 := by simp; omega
          have hpad : 7 * (((b.drop (min b.length 7)).length + 6) / 7)
              - (b.drop (min b.length 7)).length
              = 7 * ((b.length + 6) / 7) - b.length := by
            simp
            omega
          rw [hpad, htl]
          simp only [Nat.sub_self, List.replicate_zero, List.append_nil]
          congr 1
          simp only [List.append_assoc]
          congr 1
          rw [← List.append_assoc, List.take_append_drop]
        · have htk : b.take (min b.length 7) = b := by
            rw [min_eq_left (by omega), List.take_length]
          have hdr : b.drop (min b.length 7) = [] := by
            rw [min_eq_left (by omega), List.drop_length]
          rw [htk, hdr]
          have hpad : 7 * ((b.length + 6) / 7) - b.length = 7 - b.length := by
            omega
          rw [hpad]
          simp [List.append_assoc]

theorem recvConsecLoop_attachIdx :
    ∀ (chunks : List (List Nat)) (i rem : Nat) (acc : List Nat),
      (∀ c ∈ chunks, c.length = 7) → (rem + 6) / 7 ≤ chunks.length →
      ∃ buf, recvConsecLoop (attachIdx chunks i) i rem acc = .ok buf ∧
        buf.length = acc.length + 7 * ((rem + 6) / 7) := by
  intro chunks
  induction chunks with
  | nil =>
      intro i rem acc hc hn
      have hrem : rem = 0 := by simp at hn; omega
      subst hrem
      refine ⟨acc, ?_, by norm_num⟩
      rw [attachIdx, recvConsecLoop.eq_1]
      simp
  | cons c cs ih =>
      intro i rem acc hc hn
      by_cases hrem : rem = 0
      · subst hrem
        refine ⟨acc, ?_, by norm_num⟩
        rw [attachIdx, recvConsecLoop.eq_2]
        simp
      · have hlen7 : c.length = 7 := hc c (by simp)
        rw [attachIdx, recvConsecLoop.eq_2]
        simp only [hrem, ite_false, ne_eq, not_true_eq_false]
        have hn' : (rem + 6) / 7 ≤ cs.length + 1 := by simpa using hn
        obtain ⟨buf, hbuf, hblen⟩ :=
          ih (nextIndex i) (rem - min rem 7) (acc ++ c)
            (fun x hx => hc x (List.mem_cons_of_mem _ hx)) (by omega)
        refine ⟨buf, hbuf, ?_⟩
        rw [hblen]
        simp only [List.length_append, hlen7]
        omega

/-- Claim C3 (amended): for every payload of length n in [8, 4095] and a
flow-control grant of block size 0, write_isotp emits exactly one First
frame (size n, first 6 bytes) followed by ceil((n-6)/7) Consecutive frames
whose indices follow 1,2,...,15,0,1,...; read_isotp applied to that frame
sequence succeeds and returns the original n payload bytes followed by
7*ceil((n-6)/7) - (n-6) trailing zero-padding bytes (rather than exactly
the original payload, which the code reproduces only when 7 divides n-6).
Here ceil((n-6)/7) is written (n - 6 + 6) / 7. -/
theorem claim_C3_send_recv_amended (data : List Nat) (flag : FCFlag)
    (st : Duration) (h8 : 8 ≤ data.length) (h4095 : data.length ≤ 4095) :
    write_isotp data [Frame.Flow flag 0 st]
      = .ok (Frame.First data.length (data.take 6)
          :: mkConsecs (data.drop 6) 1) ∧
    (mkConsecs (data.drop 6) 1).length = (data.length - 6 + 6) / 7 ∧
    (mkConsecs (data.drop 6) 1).map frameIndex
      = (List.range ((data.length - 6 + 6) / 7)).map
          (fun j => some ((1 + j) % 16)) ∧
    read_isotp (Frame.First data.length (data.take 6)
        :: mkConsecs (data.drop 6) 1)
      = .ok (data ++ List.replicate
            (7 * ((data.length - 6 + 6) / 7) - (data.length - 6)) 0,
          [Frame.Flow .Continue 0 (st_to_duration 0)]) := by
  have hd6 : (data.drop 6).length = data.length - 6 := by simp
  refine ⟨?_, ?_, ?_, ?_⟩
  · unfold write_isotp
    have h7 : ¬ data.length ≤ 7 := by omega
    simp only [h7, ite_false, SendPacket.new, SendPacket.first_frame,
      recv_flow_control_frame]
    have hmod : data.length % 65536 = data.length := Nat.mod_eq_of_lt (by omega)
    have hmin : min data.length 6 = 6 := min_eq_right (by omega)
    rw [sendLoop_zero_block (data.drop (min data.length 6)).length _ _ st []
      le_rfl]
    rw [hmod, hmin]
  · rw [mkConsecs_length (data.drop 6).length _ _ le_rfl, hd6]
  · rw [mkConsecs_map_frameIndex (data.drop 6).length _ _ le_rfl (by norm_num),
      hd6]
  · unfold read_isotp
    have hmin : min data.length 6 = 6 := min_eq_right (by omega)
    simp only [hmin]
    have htk : (data.take 6).take 6 = data.take 6 := by
      rw [List.take_take]
      norm_num
    have htklen : (data.take 6).length = 6 := by simp; omega
    rw [htk, htklen]
    have hrem : data.length - 6 = (data.drop 6).length := hd6.symm
    rw [hrem, recvConsecLoop_mkConsecs (data.drop 6).length _ _ _ le_rfl]
    rw [List.take_append_drop]

/-- Claim C6: for a multi-frame receive with declared total size > 6 whose
Consecutive frames all carry the expected wrapping index (and arbitrary
7-byte data), read_isotp succeeds and the returned buffer has length
6 + 7*ceil((size-6)/7): every frame contributes its full 7 bytes even
though only min(remaining, 7) is counted against the remaining total. -/
theorem claim_C6_receive_padding (size : Nat) (d : List Nat)
    (chunks : List (List Nat)) (hn : 6 < size) (hd : d.length = 6)
    (hc : ∀ c ∈ chunks, c.length = 7)
    (hcount : (size - 6 + 6) / 7 ≤ chunks.length) :
    ∃ buf, read_isotp (Frame.First size d :: attachIdx chunks 1)
        = .ok (buf, [Frame.Flow .Continue 0 (st_to_duration 0)]) ∧
      buf.length = 6 + 7 * ((size - 6 + 6) / 7) := by
  unfold read_isotp
  have hmin : min size 6 = 6 := min_eq_right (by omega)
  simp only [hmin]
  have htk : d.take 6 = d := by rw [← hd, List.take_length]
  rw [htk, hd]
  obtain ⟨buf, hbuf, hblen⟩ :=
    recvConsecLoop_attachIdx chunks 1 (size - 6) d hc hcount
  rw [hbuf]
  exact ⟨buf, rfl, by omega⟩

/-- Claim C3 counterexample: for the 8-byte payload [1..8], write_isotp
(with a block-size-0 grant) emits a First frame and one Consecutive frame,
and read_isotp on that very frame sequence returns 13 bytes - the payload
plus 5 bytes of zero padding - not "exactly the original n payload bytes"
as the claim states. -/
theorem claim_C3_counterexample :
    write_isotp [1, 2, 3, 4, 5, 6, 7, 8] [Frame.Flow .Continue 0 0]
      = .ok [Frame.First 8 [1, 2, 3, 4, 5, 6],
             Frame.Consecutive 1 [7, 8, 0, 0, 0, 0, 0]] ∧
    read_isotp [Frame.First 8 [1, 2, 3, 4, 5, 6],
                Frame.Consecutive 1 [7, 8, 0, 0, 0, 0, 0]]
      = .ok ([1, 2, 3, 4, 5, 6, 7, 8, 0, 0, 0, 0, 0],
             [Frame.Flow .Continue 0 (st_to_duration 0)]) ∧
    ([1, 2, 3, 4, 5, 6, 7, 8, 0, 0, 0, 0, 0] : List Nat)
      ≠ [1, 2, 3, 4, 5, 6, 7, 8] := by
  refine ⟨?_, ?_, ?_⟩
  · simp [write_isotp, sendLoop, SendPacket.new, SendPacket.first_frame,
      SendPacket.next_consec_frame, Frame.consecutive, recv_flow_control_frame]
  · decide
  · decide

/-- Witness for claim C3's amended theorem at the 8-byte payload [1..8]. -/
theorem claim_C3_witness :
    8 ≤ ([1, 2, 3, 4, 5, 6, 7, 8] : List Nat).length ∧
    ([1, 2, 3, 4, 5, 6, 7, 8] : List Nat).length ≤ 4095 ∧
    write_isotp [1, 2, 3, 4, 5, 6, 7, 8] [Frame.Flow .Continue 0 0]
      = .ok (Frame.First ([1, 2, 3, 4, 5, 6, 7, 8] : List Nat).length
          (([1, 2, 3, 4, 5, 6, 7, 8] : List Nat).take 6)
          :: mkConsecs (([1, 2, 3, 4, 5, 6, 7, 8] : List Nat).drop 6) 1) :=
  ⟨by decide, by decide,
   (claim_C3_send_recv_amended [1, 2, 3, 4, 5, 6, 7, 8] .Continue 0
      (by decide) (by decide)).1⟩

/-- Witness for claim C6 at size 13 with one 7-byte Consecutive frame. -/
theorem claim_C6_witness :
    ∃ buf, read_isotp (Frame.First 13 [0, 0, 0, 0, 0, 0]
        :: attachIdx [[9, 9, 9, 9, 9, 9, 9]] 1)
      = .ok (buf, [Frame.Flow .Continue 0 (st_to_duration 0)]) ∧
      buf.length = 6 + 7 * ((13 - 6 + 6) / 7) :=
  claim_C6_receive_padding 13 [0, 0, 0, 0, 0, 0] [[9, 9, 9, 9, 9, 9, 9]]
    (by decide) (by decide)
    (by intro c hc; simp at hc; subst hc; rfl) (by decide)
